import Mathlib

/-!
Verification development for the supply-chain shipment data-cleaning and
aggregation engine (`app.py`).

The source program is a pandas pipeline.  We embed it shallowly:

* a dataframe row becomes a `Shipment` record; date cells are `Option ℤ`
  (days; `none` models `NaT`, i.e. a missing or unparseable date after
  `pd.to_datetime(…, errors="coerce")`), numeric cells are `Option ℚ`
  (`none` models `NaN` after `pd.to_numeric(…, errors="coerce")`);
* optional presence of a column in the CSV schema (the source guards with
  `if col in df.columns`) becomes a `Schema` of booleans;
* each pandas statement of `load_data` becomes one list transformation,
  applied in the source order;
* `groupby(...).agg(...)` becomes `agg_base`; pandas sorts group keys, so
  keys are the sorted deduplication of the column;
* `Series.quantile(0.95)` / `Series.median()` use pandas' default linear
  interpolation / mid-point rule, reproduced exactly over `ℚ`;
* `round(x, 2)` / `.round(2)` round half to even (the IEEE/numpy rule),
  modelled exactly over `ℚ`;
* `sort_values(ascending=False)` in pandas computes an ascending argsort
  and reverses the resulting indexer (`pandas.core.sorting.nargsort`), so
  it is modelled as a stable ascending insertion sort followed by
  `reverse` (numpy's default sort is insertion sort — stable — below its
  17-element cutoff, which covers every concrete input used here).

The trends tab (`year_month`, yearly/monthly tables) is not needed by any
statement proved below and is omitted.
-/

attribute [local semireducible] Rat.add Rat.mul Rat.inv Rat.sub

namespace SupplyChain

/-- The seven core numeric columns of the dataset (`numeric_cols` in the
source, in source order). -/
inductive NumCol
  | freight | insurance | weight | quantity | lineValue | packPrice | unitPrice
deriving DecidableEq, Repr

/-- `numeric_cols`: the list the imputation loop iterates over. -/
def numericCols : List NumCol :=
  [.freight, .insurance, .weight, .quantity, .lineValue, .packPrice, .unitPrice]

/-- Which optional columns exist in the loaded CSV.  `Scheduled Delivery
Date` and `Delivered to Client Date` are required (the source indexes them
unconditionally), so they are not schema-optional. -/
structure Schema where
  hasPOSent : Bool
  hasNum : NumCol → Bool

/-- One dataframe row.  Raw cells plus the derived columns the pipeline
assigns (`lead_time_days`, `delay_days`, `is_late`). -/
structure Shipment where
  poSent : Option ℤ
  scheduled : Option ℤ
  delivered : Option ℤ
  country : String
  mode : String
  item : String
  freight : Option ℚ
  insurance : Option ℚ
  weight : Option ℚ
  quantity : Option ℚ
  lineValue : Option ℚ
  packPrice : Option ℚ
  unitPrice : Option ℚ
  lead_time_days : Option ℤ := none
  delay_days : Option ℤ := none
  is_late : ℕ := 0
deriving DecidableEq, Repr

/-- A dataframe: its schema plus its rows. -/
structure Df where
  schema : Schema
  records : List Shipment

/-- Read a numeric cell by column name. -/
def Shipment.getNum (r : Shipment) : NumCol → Option ℚ
  | .freight => r.freight
  | .insurance => r.insurance
  | .weight => r.weight
  | .quantity => r.quantity
  | .lineValue => r.lineValue
  | .packPrice => r.packPrice
  | .unitPrice => r.unitPrice

/-- Write a numeric cell by column name. -/
def Shipment.setNum (r : Shipment) : NumCol → Option ℚ → Shipment
  | .freight, v => { r with freight := v }
  | .insurance, v => { r with insurance := v }
  | .weight, v => { r with weight := v }
  | .quantity, v => { r with quantity := v }
  | .lineValue, v => { r with lineValue := v }
  | .packPrice, v => { r with packPrice := v }
  | .unitPrice, v => { r with unitPrice := v }

/-! ### Numeric helpers (pandas semantics over `ℚ`) -/

/-- `Series.mean()` with `skipna` already applied: the caller passes the
present values; the mean of an empty series is `NaN` (`none`). -/
def mean (l : List ℚ) : Option ℚ :=
  if l.isEmpty then none else some (l.sum / (l.length : ℚ))

/-- `Series.median()`: midpoint rule on the sorted present values; `NaN`
(`none`) for an empty series. -/
def median (l : List ℚ) : Option ℚ :=
  let s := l.insertionSort (· ≤ ·)
  let n := s.length
  if n = 0 then none
  else if n % 2 = 1 then some (s.getD (n / 2) 0)
  else some ((s.getD (n / 2 - 1) 0 + s.getD (n / 2) 0) / 2)

/-- The interpolation position of the 95th percentile in a sorted list of
length `n`: `0.95 * (n - 1)`. -/
def qpos (s : List ℚ) : ℚ := 19 * ((s.length : ℚ) - 1) / 20

/-- Linear interpolation between the entries at `⌊qpos⌋` and `⌈qpos⌉` of a
sorted list. -/
def qinterp (s : List ℚ) : ℚ :=
  s.getD (⌊qpos s⌋).toNat 0 +
    (qpos s - (⌊qpos s⌋ : ℚ)) *
      (s.getD (⌈qpos s⌉).toNat 0 - s.getD (⌊qpos s⌋).toNat 0)

/-- `Series.quantile(0.95)` with the default linear interpolation: with the
present values sorted ascending as `v₀ … v_{n-1}`, the result is
`v_i + (h - i) * (v_j - v_i)` where `h = 0.95 * (n - 1)`, `i = ⌊h⌋`,
`j = ⌈h⌉`.  `NaN` (`none`) for an empty series. -/
def quantile95 (l : List ℚ) : Option ℚ :=
  if l.isEmpty then none
  else some (qinterp (l.insertionSort (· ≤ ·)))

/-- Round a rational to the nearest integer, half to even (numpy/Python
rounding). -/
def round_half_even (q : ℚ) : ℤ :=
  if q - (⌊q⌋ : ℚ) = 1 / 2 then (if ⌊q⌋ % 2 = 0 then ⌊q⌋ else ⌊q⌋ + 1)
  else round q

/-- `round(x, 2)` / `.round(2)`. -/
def round2 (q : ℚ) : ℚ := (round_half_even (q * 100) : ℚ) / 100

/-! ### The `load_data` pipeline, one definition per source statement -/

/-- `df = df.dropna(subset=["Scheduled Delivery Date", "Delivered to Client
Date"])`. -/
def dropDates (recs : List Shipment) : List Shipment :=
  recs.filter fun r => r.scheduled.isSome && r.delivered.isSome

/-- `df["lead_time_days"] = (Delivered - PO Sent).dt.days` when the PO-sent
column exists, else `np.nan`; a `NaT` on either side yields `NaN`. -/
def leadFn (s : Schema) (r : Shipment) : Shipment :=
  { r with lead_time_days :=
      if s.hasPOSent then
        match r.delivered, r.poSent with
        | some d, some p => some (d - p)
        | _, _ => none
      else none }

def computeLead (s : Schema) (recs : List Shipment) : List Shipment :=
  recs.map (leadFn s)

/-- `df["delay_days"] = (Delivered - Scheduled).dt.days`. -/
def delayFn (r : Shipment) : Shipment :=
  { r with delay_days :=
      match r.delivered, r.scheduled with
      | some d, some s => some (d - s)
      | _, _ => none }

def computeDelay (recs : List Shipment) : List Shipment :=
  recs.map delayFn

/-- Lines 69-73: the four `df.loc[...] = np.nan` range masks.  (The two
`pd.to_numeric` reaffirmations on lines 66-67 are identities here: the
cells are already typed.) -/
def forceRanges (r : Shipment) : Shipment :=
  { r with
    lead_time_days :=
      match r.lead_time_days with
      | some v => if v < 0 then none else if 365 < v then none else some v
      | none => none
    delay_days :=
      match r.delay_days with
      | some v => if 365 < v then none else if v < -90 then none else some v
      | none => none }

def rangeForce (recs : List Shipment) : List Shipment :=
  recs.map forceRanges

/-- `df[col].median()` over the currently present values of one column. -/
def colMedian (c : NumCol) (recs : List Shipment) : Option ℚ :=
  median (recs.filterMap fun r => r.getNum c)

/-- `df[col] = df[col].fillna(m)` applied to one row: a present cell is
kept, an absent cell receives `m` (which is itself `none` when the column
had no present values, so `fillna(NaN)` is a no-op). -/
def imputeFn (c : NumCol) (m : Option ℚ) (r : Shipment) : Shipment :=
  match r.getNum c with
  | some _ => r
  | none => r.setNum c m

/-- One iteration of the `for col in numeric_cols` loop (guarded by
`if col in df.columns`). -/
def imputeCol (s : Schema) (c : NumCol) (recs : List Shipment) : List Shipment :=
  if s.hasNum c then recs.map (imputeFn c (colMedian c recs)) else recs

/-- The whole imputation loop. -/
def imputeAll (s : Schema) (recs : List Shipment) : List Shipment :=
  numericCols.foldl (fun acc c => imputeCol s c acc) recs

/-- `df["Weight (Kilograms)"] > 0` for one row (`NaN > 0` is `False`). -/
def wpos (r : Shipment) : Bool :=
  match r.weight with
  | some w => decide (0 < w)
  | none => false

/-- `df.loc[w > cap] = cap` applied to one row: only a present weight
strictly above the cap is overwritten. -/
def clampW (cap : ℚ) (r : Shipment) : Shipment :=
  match r.weight with
  | some w => if cap < w then { r with weight := some cap } else r
  | none => r

/-- Lines 91-94: positivity filter, 95th-percentile cap, clamp.  When the
filtered set is empty the quantile is `NaN` and the clamp mask matches no
row. -/
def weightStep (s : Schema) (recs : List Shipment) : List Shipment :=
  if s.hasNum .weight then
    match quantile95 ((recs.filter wpos).filterMap fun r => r.weight) with
    | some cap => (recs.filter wpos).map (clampW cap)
    | none => recs.filter wpos
  else recs

/-- `df["is_late"] = (df["delay_days"] > 0).astype(int)`; `NaN > 0` is
`False`, so an absent delay gives `0`. -/
def setLate (r : Shipment) : Shipment :=
  { r with is_late :=
      match r.delay_days with
      | some d => if 0 < d then 1 else 0
      | none => 0 }

def isLateStep (recs : List Shipment) : List Shipment :=
  recs.map setLate

/-! ### Pipeline stages and `load_data` -/

def afterDates (df : Df) : List Shipment := dropDates df.records

def afterDerive (df : Df) : List Shipment :=
  computeDelay (computeLead df.schema (afterDates df))

def afterRange (df : Df) : List Shipment := rangeForce (afterDerive df)

def afterImpute (df : Df) : List Shipment := imputeAll df.schema (afterRange df)

/-- The `weight_cap` local of `load_data`: the 95th-percentile weight over
the positive-weight rows, at clamp time; `none` when the weight column is
absent from the schema or no positive weight exists. -/
def weight_cap (df : Df) : Option ℚ :=
  if df.schema.hasNum .weight then
    quantile95 (((afterImpute df).filter wpos).filterMap fun r => r.weight)
  else none

/-- `load_data()`: the whole normalize → filter → enrich pipeline. -/
def load_data (df : Df) : Df :=
  ⟨df.schema, isLateStep (weightStep df.schema (afterImpute df))⟩

/-! ### View Selector (sidebar filters) -/

/-- `df_filtered`: `if country_filter: …isin…` then `if mode_filter: …isin…`.
A Python empty list is falsy, so an empty selection applies no filter. -/
def df_filtered (country_filter mode_filter : List String) (rs : List Shipment) :
    List Shipment :=
  let d1 := if country_filter.isEmpty then rs
    else rs.filter fun r => decide (r.country ∈ country_filter)
  if mode_filter.isEmpty then d1
  else d1.filter fun r => decide (r.mode ∈ mode_filter)

/-! ### Aggregator -/

/-- Code-point comparison of strings (how Python compares the group keys
pandas sorts by).  `String.data` is compared lexicographically. -/
def charsLe : List Char → List Char → Bool
  | [], _ => true
  | _ :: _, [] => false
  | a :: as, b :: bs =>
    if a < b then true else if b < a then false else charsLe as bs

def strLe (a b : String) : Bool := charsLe a.data b.data

/-- The distinct group keys, in sorted order (`groupby` defaults to
`sort=True`). -/
def group_keys (keyf : Shipment → String) (rs : List Shipment) : List String :=
  ((rs.map keyf).dedup).insertionSort fun a b => strLe a b = true

/-- One aggregate row before the `late_ratio` column is added. -/
structure GroupAgg where
  key : String
  total_shipments : ℕ
  late_shipments : ℕ
  avg_lead : Option ℚ
  avg_delay : Option ℚ
  total_quantity : ℚ
  total_value : ℚ
deriving DecidableEq, Repr

/-- An aggregate row with the `late_ratio` column. -/
structure AggRow extends GroupAgg where
  late_ratio : ℚ
deriving DecidableEq, Repr

/-- `df_filtered.groupby(dim).agg(...)`: one row per distinct key.
`total_shipments` is `("is_late", "count")` — a count of non-null cells,
and `is_late` is never null, so it is the group size; `late_shipments` is
the sum of `is_late`; the means skip absent values (a group with none
present gets `NaN`); the sums skip absent values (an all-absent group sums
to `0`).  The shipment-mode table of the source omits the quantity/value
columns; they are carried here harmlessly. -/
def agg_base (keyf : Shipment → String) (rs : List Shipment) : List GroupAgg :=
  (group_keys keyf rs).map fun k =>
    let g := rs.filter fun r => keyf r == k
    { key := k
      total_shipments := g.length
      late_shipments := (g.map fun r => r.is_late).sum
      avg_lead := mean ((g.filterMap fun r => r.lead_time_days).map fun v => (v : ℚ))
      avg_delay := mean ((g.filterMap fun r => r.delay_days).map fun v => (v : ℚ))
      total_quantity := (g.filterMap fun r => r.quantity).sum
      total_value := (g.filterMap fun r => r.lineValue).sum }

/-- `stats["late_ratio"] = (late_shipments / total_shipments * 100).round(2)`. -/
def with_ratio (b : GroupAgg) : AggRow :=
  { b with late_ratio :=
      round2 ((b.late_shipments : ℚ) / (b.total_shipments : ℚ) * 100) }

/-- `country_stats` with its `late_ratio` column (the source only assigns
the column when the table is non-empty; on an empty table both readings
are the empty table). -/
def country_stats (rs : List Shipment) : List AggRow :=
  (agg_base (fun r => r.country) rs).map with_ratio

/-- `shipment_stats` with its `late_ratio` column. -/
def shipment_stats (rs : List Shipment) : List AggRow :=
  (agg_base (fun r => r.mode) rs).map with_ratio

/-- `sort_values(by=metric, ascending=False)`: pandas sorts ascending by an
argsort and reverses the indexer (`pandas.core.sorting.nargsort`), so a
descending sort is the reverse of a stable ascending sort. -/
def sort_values_desc {α : Type} (key : α → ℚ) (l : List α) : List α :=
  (l.insertionSort fun a b => key a ≤ key b).reverse

/-- `top_countries`: `country_stats.sort_values("total_quantity",
ascending=False).head(10)`. -/
def top_countries (rs : List Shipment) : List AggRow :=
  (sort_values_desc (fun row => row.total_quantity) (country_stats rs)).take 10

/-- `product_stats`: `groupby("Item Description")["Line Item Quantity"]
.sum().sort_values(ascending=False).head(15)`. -/
def product_stats (rs : List Shipment) : List (String × ℚ) :=
  let tbl := (group_keys (fun r => r.item) rs).map fun k =>
    (k, ((rs.filter fun r => r.item == k).filterMap fun r => r.quantity).sum)
  (sort_values_desc (fun p => p.2) tbl).take 15

/-! ### Headline metrics (lines 118-122) -/

/-- `total_shipments = len(df)`. -/
def total_shipments (rs : List Shipment) : ℕ := rs.length

/-- `late_shipments = int(df["is_late"].sum())` (the sum of an empty or
all-zero integer column is `0`). -/
def late_shipments (rs : List Shipment) : ℕ := (rs.map fun r => r.is_late).sum

/-- `late_ratio = round(df["is_late"].mean() * 100, 2)`; the mean of an
empty column is `NaN` and `round(NaN, 2)` is `NaN`. -/
def late_ratio (rs : List Shipment) : Option ℚ :=
  (mean (rs.map fun r => (r.is_late : ℚ))).map fun m => round2 (m * 100)

/-- `avg_lead = round(df["lead_time_days"].mean(), 2)`; the mean skips
absent values and is `NaN` when none is present. -/
def avg_lead (rs : List Shipment) : Option ℚ :=
  (mean ((rs.filterMap fun r => r.lead_time_days).map fun v => (v : ℚ))).map round2

/-- `avg_delay = round(df["delay_days"].mean(), 2)`. -/
def avg_delay (rs : List Shipment) : Option ℚ :=
  (mean ((rs.filterMap fun r => r.delay_days).map fun v => (v : ℚ))).map round2

/-! ### Re-running the pipeline on its own output -/

/-- Re-derive the raw shape of one enriched row: the derived columns are
reset (they are recomputed unconditionally by `load_data` anyway); the raw
date, categorical and numeric cells are kept. -/
def toRawFn (r : Shipment) : Shipment :=
  { r with lead_time_days := none, delay_days := none, is_late := 0 }

/-- Re-derive the raw-shaped columns of an enriched output. -/
def toRaw (df : Df) : Df := ⟨df.schema, df.records.map toRawFn⟩

/-! ### Concrete inputs used in scenario conjuncts, witnesses and
counterexamples -/

/-- A schema in which every optional column exists (the shape of the real
dataset). -/
def fullSchema : Schema := ⟨true, fun _ => true⟩

/-- A template row with both required dates present, weight `1`, and every
numeric cell present. -/
def baseRec : Shipment :=
  { poSent := none, scheduled := some 0, delivered := some 0,
    country := "A", mode := "Air", item := "X",
    freight := some 10, insurance := some 1, weight := some 1,
    quantity := some 10, lineValue := some 0, packPrice := some 1,
    unitPrice := some 1 }

/-- The spec scenario: three records for country "Togo", two delivered 5
days late and one 2 days early. -/
def togoDf : Df :=
  ⟨fullSchema,
    [{ baseRec with country := "Togo", delivered := some 5 },
     { baseRec with country := "Togo", delivered := some 5 },
     { baseRec with country := "Togo", scheduled := some 2 }]⟩

/-- The aggregate row the Togo scenario produces. -/
def togoRow : AggRow :=
  { key := "Togo", total_shipments := 3, late_shipments := 2,
    avg_lead := none, avg_delay := some (8 / 3), total_quantity := 30,
    total_value := 0, late_ratio := 6667 / 100 }

/-- The clamp scenario: twenty records of weight 500, one of weight
100000, one of weight −3; the 95th percentile of the 21 positive weights
is exactly 500. -/
def capDf : Df :=
  ⟨fullSchema,
    List.replicate 20 { baseRec with country := "W500", weight := some (500 : ℚ) } ++
      [{ baseRec with country := "BIG", weight := some (100000 : ℚ) },
       { baseRec with country := "NEG", weight := some (-3 : ℚ) }]⟩

/-- One record whose delivered date is 400 days past the scheduled date:
far enough out of range that `delay_days` is forced absent. -/
def lateDf : Df := ⟨fullSchema, [{ baseRec with delivered := some 400 }]⟩

/-- One record whose freight cell is absent while the whole freight column
has no present value. -/
def noFreightDf : Df := ⟨fullSchema, [{ baseRec with freight := none }]⟩

/-- Two records, one with a present freight cell and one without, so the
absent one is imputed with the median `10`. -/
def someFreightDf : Df :=
  ⟨fullSchema, [baseRec, { baseRec with freight := none }]⟩

/-- Eleven single-record country groups, every group with the same total
quantity, fed to the aggregator directly (they are already
enriched-shaped). -/
def tieRecs : List Shipment :=
  ["C01", "C02", "C03", "C04", "C05", "C06", "C07", "C08", "C09", "C10", "C11"].map
    fun c => { baseRec with country := c }

/-- Two records of weight 1 and 100: the interpolated 95th percentile is
1901/20 = 95.05, and re-running the pipeline on the clamped output yields
the strictly smaller 36139/400 = 90.3475. -/
def twoWeightDf : Df :=
  ⟨fullSchema,
    [baseRec, { baseRec with country := "B", weight := some (100 : ℚ) }]⟩

/-- The date, derived-day and key cells a row-level transform of the
numeric or lateness columns never touches. -/
def SameMeta (a b : Shipment) : Prop :=
  a.poSent = b.poSent ∧ a.scheduled = b.scheduled ∧ a.delivered = b.delivered ∧
    a.lead_time_days = b.lead_time_days ∧ a.delay_days = b.delay_days

/-! ## Row-level preservation lemmas -/

theorem sameMeta_refl (a : Shipment) : SameMeta a a := ⟨rfl, rfl, rfl, rfl, rfl⟩

theorem sameMeta_trans {a b c : Shipment} (h1 : SameMeta a b) (h2 : SameMeta b c) :
    SameMeta a c := by
  obtain ⟨p1, s1, d1, l1, y1⟩ := h1
  obtain ⟨p2, s2, d2, l2, y2⟩ := h2
  exact ⟨p1.trans p2, s1.trans s2, d1.trans d2, l1.trans l2, y1.trans y2⟩

theorem setNum_meta (r : Shipment) (c : NumCol) (v : Option ℚ) :
    SameMeta (r.setNum c v) r := by
  cases c <;> exact ⟨rfl, rfl, rfl, rfl, rfl⟩

theorem setNum_getNum_self (r : Shipment) (c : NumCol) (v : Option ℚ) :
    (r.setNum c v).getNum c = v := by
  cases c <;> rfl

theorem setNum_getNum_ne (r : Shipment) {c c' : NumCol} (v : Option ℚ) (h : c' ≠ c) :
    (r.setNum c v).getNum c' = r.getNum c' := by
  cases c <;> cases c' <;> first | rfl | exact absurd rfl h

theorem imputeFn_meta (c : NumCol) (m : Option ℚ) (r : Shipment) :
    SameMeta (imputeFn c m r) r := by
  unfold imputeFn
  split
  · exact sameMeta_refl r
  · exact setNum_meta r c m

theorem imputeFn_of_isSome {c : NumCol} {r : Shipment} (m : Option ℚ)
    (h : (r.getNum c).isSome) : imputeFn c m r = r := by
  unfold imputeFn
  split
  · rfl
  · next hnone => rw [hnone] at h; simp at h

theorem imputeFn_getNum_ne {c c' : NumCol} (m : Option ℚ) (r : Shipment) (h : c' ≠ c) :
    (imputeFn c m r).getNum c' = r.getNum c' := by
  unfold imputeFn
  split
  · rfl
  · exact setNum_getNum_ne r m h

theorem imputeFn_weight {c : NumCol} (m : Option ℚ) {r : Shipment}
    (h : r.weight.isSome) : (imputeFn c m r).weight = r.weight := by
  by_cases hc : c = NumCol.weight
  · subst hc
    exact congrArg Shipment.weight (imputeFn_of_isSome m h)
  · exact imputeFn_getNum_ne m r fun he => hc he.symm

theorem clampW_meta (cap : ℚ) (r : Shipment) : SameMeta (clampW cap r) r := by
  unfold clampW
  split
  · split
    · exact ⟨rfl, rfl, rfl, rfl, rfl⟩
    · exact sameMeta_refl r
  · exact sameMeta_refl r

theorem clampW_getNum_ne (cap : ℚ) (r : Shipment) {c : NumCol}
    (h : c ≠ NumCol.weight) : (clampW cap r).getNum c = r.getNum c := by
  unfold clampW
  split
  · split
    · cases c <;> first | rfl | exact absurd rfl h
    · rfl
  · rfl

theorem clampW_weight {cap w : ℚ} {r : Shipment} (h : r.weight = some w) :
    (clampW cap r).weight = some (if cap < w then cap else w) := by
  unfold clampW
  rw [h]
  by_cases hlt : cap < w
  · simp [hlt]
  · simp [hlt, h]

theorem setLate_meta (r : Shipment) : SameMeta (setLate r) r :=
  ⟨rfl, rfl, rfl, rfl, rfl⟩

theorem setLate_getNum (r : Shipment) (c : NumCol) :
    (setLate r).getNum c = r.getNum c := by
  cases c <;> rfl

theorem setLate_weight (r : Shipment) : (setLate r).weight = r.weight := rfl

theorem setLate_is_late (r : Shipment) :
    (setLate r).is_late =
      match r.delay_days with
      | some d => if 0 < d then 1 else 0
      | none => 0 := rfl

/-! ## Membership transfer through the pipeline stages -/

theorem imputeCol_mem {s : Schema} {c : NumCol} {recs : List Shipment} {r : Shipment}
    (h : r ∈ imputeCol s c recs) :
    ∃ r0 ∈ recs, SameMeta r r0 ∧ (r0.weight.isSome → r.weight = r0.weight) := by
  unfold imputeCol at h
  split at h
  · obtain ⟨r0, hr0, rfl⟩ := List.mem_map.mp h
    exact ⟨r0, hr0, imputeFn_meta _ _ r0, fun hw => imputeFn_weight _ hw⟩
  · exact ⟨r, h, sameMeta_refl r, fun _ => rfl⟩

theorem foldl_imputeCol_mem (s : Schema) :
    ∀ (cols : List NumCol) (recs : List Shipment) (r : Shipment),
      r ∈ cols.foldl (fun acc c => imputeCol s c acc) recs →
      ∃ r0 ∈ recs, SameMeta r r0 ∧ (r0.weight.isSome → r.weight = r0.weight)
  | [], recs, r, h => ⟨r, h, sameMeta_refl r, fun _ => rfl⟩
  | c :: cols, recs, r, h => by
    obtain ⟨r1, hr1, hm1, hw1⟩ := foldl_imputeCol_mem s cols (imputeCol s c recs) r h
    obtain ⟨r0, hr0, hm0, hw0⟩ := imputeCol_mem hr1
    refine ⟨r0, hr0, sameMeta_trans hm1 hm0, fun hw => ?_⟩
    have h1 := hw0 hw
    exact (hw1 (h1 ▸ hw)).trans h1

theorem afterImpute_mem {df : Df} {r : Shipment} (h : r ∈ afterImpute df) :
    ∃ r0 ∈ afterRange df, SameMeta r r0 ∧ (r0.weight.isSome → r.weight = r0.weight) :=
  foldl_imputeCol_mem df.schema numericCols (afterRange df) r h

theorem weightStep_mem {s : Schema} {recs : List Shipment} {r : Shipment}
    (h : r ∈ weightStep s recs) : ∃ r0 ∈ recs, SameMeta r r0 := by
  unfold weightStep at h
  split at h
  · split at h
    · obtain ⟨r0, hr0, rfl⟩ := List.mem_map.mp h
      exact ⟨r0, List.mem_of_mem_filter hr0, clampW_meta _ r0⟩
    · exact ⟨r, List.mem_of_mem_filter h, sameMeta_refl r⟩
  · exact ⟨r, h, sameMeta_refl r⟩

theorem isLateStep_mem {recs : List Shipment} {r : Shipment}
    (h : r ∈ isLateStep recs) : ∃ r0 ∈ recs, r = setLate r0 := by
  obtain ⟨r0, hr0, rfl⟩ := List.mem_map.mp h
  exact ⟨r0, hr0, rfl⟩

theorem mem_afterDates {df : Df} {r : Shipment} (h : r ∈ afterDates df) :
    r ∈ df.records ∧ r.scheduled.isSome ∧ r.delivered.isSome := by
  have h' := List.mem_filter.mp h
  exact ⟨h'.1, (Bool.and_eq_true _ _).mp h'.2 |>.1, (Bool.and_eq_true _ _).mp h'.2 |>.2⟩

theorem mem_afterDerive {df : Df} {r : Shipment} (h : r ∈ afterDerive df) :
    ∃ s d, r.scheduled = some s ∧ r.delivered = some d ∧ r.delay_days = some (d - s) := by
  unfold afterDerive computeDelay computeLead at h
  obtain ⟨r1, hr1, rfl⟩ := List.mem_map.mp h
  obtain ⟨r0, hr0, rfl⟩ := List.mem_map.mp hr1
  obtain ⟨-, hs, hd⟩ := mem_afterDates hr0
  obtain ⟨s, hs⟩ := Option.isSome_iff_exists.mp hs
  obtain ⟨d, hd⟩ := Option.isSome_iff_exists.mp hd
  refine ⟨s, d, ?_, ?_, ?_⟩
  · simpa [delayFn, leadFn] using hs
  · simpa [delayFn, leadFn] using hd
  · have hs' : (leadFn df.schema r0).scheduled = some s := hs
    have hd' : (leadFn df.schema r0).delivered = some d := hd
    simp [delayFn, hs', hd']

theorem mem_afterRange {df : Df} {r : Shipment} (h : r ∈ afterRange df) :
    ∃ s d, r.scheduled = some s ∧ r.delivered = some d ∧
      r.delay_days =
        (if 365 < d - s then none else if d - s < -90 then none else some (d - s)) ∧
      (∀ v, r.lead_time_days = some v → 0 ≤ v ∧ v ≤ 365) ∧
      (∀ v, r.delay_days = some v → -90 ≤ v ∧ v ≤ 365) := by
  unfold afterRange rangeForce at h
  obtain ⟨r1, hr1, rfl⟩ := List.mem_map.mp h
  obtain ⟨s, d, hs, hd, hy⟩ := mem_afterDerive hr1
  refine ⟨s, d, hs, hd, ?_, ?_, ?_⟩
  · show (forceRanges r1).delay_days = _
    simp only [forceRanges, hy]
  · intro v hv
    revert hv
    show (forceRanges r1).lead_time_days = some v → _
    simp only [forceRanges]
    cases r1.lead_time_days with
    | none => intro hv; exact absurd hv (by simp)
    | some w =>
      intro hv
      by_cases h1 : w < 0
      · simp [h1] at hv
      · by_cases h2 : 365 < w
        · simp [h1, h2] at hv
        · simp [h1, h2] at hv
          subst hv
          exact ⟨le_of_not_lt h1, le_of_not_lt h2⟩
  · intro v hv
    revert hv
    show (forceRanges r1).delay_days = some v → _
    simp only [forceRanges, hy]
    by_cases h1 : 365 < d - s
    · simp [h1]
    · by_cases h2 : d - s < -90
      · simp [h1, h2]
      · simp [h1, h2]
        intro hv
        subst hv
        exact ⟨le_of_not_lt h2, le_of_not_lt h1⟩

/-! ## Quantile lemmas -/

theorem quantile95_none_iff (l : List ℚ) : quantile95 l = none ↔ l = [] := by
  unfold quantile95
  by_cases h : l.isEmpty
  · simp [h, List.isEmpty_iff.mp h]
  · simp only [if_neg h]
    simp [List.isEmpty_iff] at h
    simp [h]

theorem quantile95_isSome {l : List ℚ} (h : l ≠ []) : ∃ q, quantile95 l = some q := by
  cases hq : quantile95 l with
  | none => exact absurd ((quantile95_none_iff l).mp hq) h
  | some q => exact ⟨q, rfl⟩

theorem qpos_nonneg {s : List ℚ} (h : s ≠ []) : 0 ≤ qpos s := by
  have hn : 1 ≤ s.length := List.length_pos.mpr h
  have h1 : (1 : ℚ) ≤ (s.length : ℚ) := by exact_mod_cast hn
  unfold qpos
  nlinarith

theorem qpos_le {s : List ℚ} (h : s ≠ []) : qpos s ≤ (s.length : ℚ) - 1 := by
  have hn : 1 ≤ s.length := List.length_pos.mpr h
  have h1 : (1 : ℚ) ≤ (s.length : ℚ) := by exact_mod_cast hn
  unfold qpos
  nlinarith

theorem qpos_floor_lt {s : List ℚ} (h : s ≠ []) : (⌊qpos s⌋).toNat < s.length := by
  have hn : 1 ≤ s.length := List.length_pos.mpr h
  have hle : ⌊qpos s⌋ ≤ (s.length : ℤ) - 1 := by
    have := Int.floor_le_floor (α := ℚ) (qpos_le h)
    rwa [show ((s.length : ℚ) - 1) = (((s.length : ℤ) - 1 : ℤ) : ℚ) by push_cast; ring,
      Int.floor_intCast] at this
  omega

theorem qpos_ceil_lt {s : List ℚ} (h : s ≠ []) : (⌈qpos s⌉).toNat < s.length := by
  have hn : 1 ≤ s.length := List.length_pos.mpr h
  have hle : ⌈qpos s⌉ ≤ (s.length : ℤ) - 1 := by
    rw [Int.ceil_le]
    have := qpos_le h
    push_cast
    linarith
  omega

theorem qinterp_eq {s : List ℚ} (h : s ≠ []) :
    ∃ vi vj f : ℚ, vi ∈ s ∧ vj ∈ s ∧ 0 ≤ f ∧ f < 1 ∧
      qinterp s = vi + f * (vj - vi) := by
  refine ⟨s.getD (⌊qpos s⌋).toNat 0, s.getD (⌈qpos s⌉).toNat 0,
    qpos s - (⌊qpos s⌋ : ℚ), ?_, ?_, ?_, ?_, rfl⟩
  · rw [List.getD_eq_getElem s 0 (qpos_floor_lt h)]
    exact List.getElem_mem _
  · rw [List.getD_eq_getElem s 0 (qpos_ceil_lt h)]
    exact List.getElem_mem _
  · have := Int.floor_le (qpos s)
    linarith
  · have := Int.lt_floor_add_one (qpos s)
    linarith

theorem quantile95_eq {l : List ℚ} {q : ℚ} (h : quantile95 l = some q) :
    ∃ vi vj f : ℚ, vi ∈ l ∧ vj ∈ l ∧ 0 ≤ f ∧ f < 1 ∧ q = vi + f * (vj - vi) := by
  have hne : l ≠ [] := by
    intro he
    rw [(quantile95_none_iff l).mpr he] at h
    exact Option.noConfusion h
  unfold quantile95 at h
  rw [if_neg (by simpa [List.isEmpty_iff] using hne)] at h
  have hsne : l.insertionSort (· ≤ ·) ≠ [] := by
    intro he
    have hlen := (List.perm_insertionSort (· ≤ ·) l).length_eq
    rw [he] at hlen
    exact hne (List.length_eq_zero.mp hlen.symm)
  obtain ⟨vi, vj, f, hvi, hvj, hf0, hf1, he⟩ := qinterp_eq hsne
  refine ⟨vi, vj, f, ?_, ?_, hf0, hf1, ?_⟩
  · exact (List.mem_insertionSort (· ≤ ·)).mp hvi
  · exact (List.mem_insertionSort (· ≤ ·)).mp hvj
  · have := Option.some.inj h
    rw [← this, he]

theorem quantile95_le {l : List ℚ} {q c : ℚ} (h : quantile95 l = some q)
    (hub : ∀ x ∈ l, x ≤ c) : q ≤ c := by
  obtain ⟨vi, vj, f, hvi, hvj, hf0, hf1, he⟩ := quantile95_eq h
  have h1 := hub vi hvi
  have h2 := hub vj hvj
  nlinarith [mul_nonneg hf0 (sub_nonneg.mpr h2)]

theorem quantile95_gt {l : List ℚ} {q b : ℚ} (h : quantile95 l = some q)
    (hlb : ∀ x ∈ l, b < x) : b < q := by
  obtain ⟨vi, vj, f, hvi, hvj, hf0, hf1, he⟩ := quantile95_eq h
  have h1 := hlb vi hvi
  have h2 := hlb vj hvj
  nlinarith [mul_nonneg hf0 (sub_nonneg.mpr (le_of_lt h2)),
    mul_pos (sub_pos.mpr hf1) (sub_pos.mpr h1)]

/-! ## Workhorse invariants of `load_data` -/

theorem load_data_mem {df : Df} {r : Shipment} (h : r ∈ (load_data df).records) :
    ∃ s d, r.scheduled = some s ∧ r.delivered = some d ∧
      r.delay_days =
        (if 365 < d - s then none else if d - s < -90 then none else some (d - s)) ∧
      (∀ v, r.lead_time_days = some v → 0 ≤ v ∧ v ≤ 365) ∧
      (∀ v, r.delay_days = some v → -90 ≤ v ∧ v ≤ 365) ∧
      r.is_late =
        (match r.delay_days with
         | some x => if 0 < x then 1 else 0
         | none => 0) := by
  obtain ⟨r1, hr1, rfl⟩ := isLateStep_mem h
  obtain ⟨r2, hr2, hm12⟩ := weightStep_mem hr1
  obtain ⟨r3, hr3, hm23, -⟩ := afterImpute_mem hr2
  obtain ⟨s, d, hs, hd, hy, hlead, hdelay⟩ := mem_afterRange hr3
  have hm : SameMeta (setLate r1) r3 :=
    sameMeta_trans (setLate_meta r1) (sameMeta_trans hm12 hm23)
  obtain ⟨-, hms, hmd, hml, hmy⟩ := hm
  refine ⟨s, d, hms.trans hs, hmd.trans hd, hmy.trans hy, ?_, ?_, ?_⟩
  · intro v hv
    exact hlead v (hml.symm.trans hv)
  · intro v hv
    exact hdelay v (hmy.symm.trans hv)
  · rw [setLate_is_late]
    have : r1.delay_days = (setLate r1).delay_days := rfl
    rw [← this]

theorem load_data_weight {df : Df} {r : Shipment}
    (hw : df.schema.hasNum .weight = true) (h : r ∈ (load_data df).records) :
    ∃ w cap, r.weight = some w ∧ weight_cap df = some cap ∧ 0 < w ∧ w ≤ cap := by
  obtain ⟨r1, hr1, rfl⟩ := isLateStep_mem h
  rw [setLate_weight]
  unfold weightStep at hr1
  rw [if_pos hw] at hr1
  have hcap : weight_cap df =
      quantile95 (((afterImpute df).filter wpos).filterMap fun r => r.weight) := by
    unfold weight_cap
    rw [if_pos hw]
  have hpos : ∀ x ∈ ((afterImpute df).filter wpos).filterMap fun r => r.weight,
      (0 : ℚ) < x := by
    intro x hx
    obtain ⟨r0, hr0, hx0⟩ := List.mem_filterMap.mp hx
    have hw0 := (List.mem_filter.mp hr0).2
    unfold wpos at hw0
    rw [hx0] at hw0
    simpa using hw0
  cases hq : quantile95 (((afterImpute df).filter wpos).filterMap fun r => r.weight) with
  | none =>
    rw [hq] at hr1
    have hw1 := (List.mem_filter.mp hr1).2
    have hempty := (quantile95_none_iff _).mp hq
    unfold wpos at hw1
    cases hx : r1.weight with
    | none => rw [hx] at hw1; simp at hw1
    | some w =>
      have : w ∈ ((afterImpute df).filter wpos).filterMap fun r => r.weight :=
        List.mem_filterMap.mpr ⟨r1, hr1, hx⟩
      rw [hempty] at this
      exact absurd this (List.not_mem_nil w)
  | some cap =>
    rw [hq] at hr1
    obtain ⟨r0, hr0, rfl⟩ := List.mem_map.mp hr1
    have hw0 := (List.mem_filter.mp hr0).2
    unfold wpos at hw0
    cases hx : r0.weight with
    | none => rw [hx] at hw0; simp at hw0
    | some w0 =>
      rw [hx] at hw0
      have hw0pos : (0 : ℚ) < w0 := by simpa using hw0
      have hcappos : (0 : ℚ) < cap := quantile95_gt hq hpos
      rw [clampW_weight hx]
      by_cases hlt : cap < w0
      · exact ⟨cap, cap, by rw [if_pos hlt], hcap.trans hq, hcappos, le_refl cap⟩
      · exact ⟨w0, cap, by rw [if_neg hlt], hcap.trans hq, hw0pos, le_of_not_lt hlt⟩

/-! ## Presence propagation through the imputation loop -/

theorem median_isSome {l : List ℚ} (h : l ≠ []) : ∃ m, median l = some m := by
  unfold median
  have hlen : (l.insertionSort (· ≤ ·)).length = l.length :=
    (List.perm_insertionSort _ l).length_eq
  have hne : ¬(l.insertionSort (· ≤ ·)).length = 0 := by
    rw [hlen]
    exact fun h0 => h (List.length_eq_zero.mp h0)
  simp only [if_neg hne]
  split
  · exact ⟨_, rfl⟩
  · exact ⟨_, rfl⟩

theorem imputeCol_isSome {s : Schema} {c : NumCol} {recs : List Shipment}
    (hs : s.hasNum c = true) (h : ∃ r ∈ recs, (r.getNum c).isSome) :
    ∀ r ∈ imputeCol s c recs, (r.getNum c).isSome := by
  unfold imputeCol
  rw [if_pos hs]
  intro r hr
  obtain ⟨r0, hr0, rfl⟩ := List.mem_map.mp hr
  unfold imputeFn
  cases hg : r0.getNum c with
  | some v => simp [hg]
  | none =>
    simp only [hg]
    rw [setNum_getNum_self]
    obtain ⟨r1, hr1, hs1⟩ := h
    obtain ⟨v1, hv1⟩ := Option.isSome_iff_exists.mp hs1
    have hv1' : v1 ∈ recs.filterMap fun r => r.getNum c :=
      List.mem_filterMap.mpr ⟨r1, hr1, hv1⟩
    obtain ⟨m, hm⟩ := median_isSome (List.ne_nil_of_mem hv1')
    unfold colMedian
    rw [hm]
    rfl

theorem imputeCol_preserves_isSome {s : Schema} {c' c : NumCol} {recs : List Shipment}
    (h : ∀ r ∈ recs, (r.getNum c).isSome) :
    ∀ r ∈ imputeCol s c' recs, (r.getNum c).isSome := by
  unfold imputeCol
  split
  · intro r hr
    obtain ⟨r0, hr0, rfl⟩ := List.mem_map.mp hr
    by_cases hc : c = c'
    · subst hc
      rw [imputeFn_of_isSome _ (h r0 hr0)]
      exact h r0 hr0
    · rw [imputeFn_getNum_ne _ _ hc]
      exact h r0 hr0
  · exact h

theorem imputeCol_preserves_exists {s : Schema} {c' c : NumCol} {recs : List Shipment}
    (h : ∃ r ∈ recs, (r.getNum c).isSome) :
    ∃ r ∈ imputeCol s c' recs, (r.getNum c).isSome := by
  unfold imputeCol
  split
  · obtain ⟨r, hr, hsome⟩ := h
    refine ⟨imputeFn c' (colMedian c' recs) r, List.mem_map_of_mem _ hr, ?_⟩
    by_cases hc : c = c'
    · subst hc
      rw [imputeFn_of_isSome _ hsome]
      exact hsome
    · rw [imputeFn_getNum_ne _ _ hc]
      exact hsome
  · exact h

theorem foldl_preserves_isSome (s : Schema) (c : NumCol) :
    ∀ (cols : List NumCol) (recs : List Shipment),
      (∀ r ∈ recs, (r.getNum c).isSome) →
      ∀ r ∈ cols.foldl (fun acc c' => imputeCol s c' acc) recs, (r.getNum c).isSome
  | [], _, h => h
  | _ :: cols, _, h =>
    foldl_preserves_isSome s c cols _ (imputeCol_preserves_isSome h)

theorem foldl_imputeCol_isSome (s : Schema) (c : NumCol) (hs : s.hasNum c = true) :
    ∀ (cols : List NumCol) (recs : List Shipment), c ∈ cols →
      (∃ r ∈ recs, (r.getNum c).isSome) →
      ∀ r ∈ cols.foldl (fun acc c' => imputeCol s c' acc) recs, (r.getNum c).isSome
  | [], _, hc, _ => absurd hc (List.not_mem_nil c)
  | c' :: cols, recs, hc, hex => by
    rcases List.mem_cons.mp hc with rfl | hc'
    · exact foldl_preserves_isSome s c cols _ (imputeCol_isSome hs hex)
    · exact foldl_imputeCol_isSome s c hs cols _ hc'
        (imputeCol_preserves_exists hex)

theorem weightStep_preserves_isSome {s : Schema} {c : NumCol} {recs : List Shipment}
    (h : ∀ r ∈ recs, (r.getNum c).isSome) :
    ∀ r ∈ weightStep s recs, (r.getNum c).isSome := by
  unfold weightStep
  split
  · split
    · rename_i cap hq
      intro r hr
      obtain ⟨r0, hr0, rfl⟩ := List.mem_map.mp hr
      have h0 := h r0 (List.mem_of_mem_filter hr0)
      by_cases hc : c = NumCol.weight
      · subst hc
        show (clampW cap r0).weight.isSome
        obtain ⟨w, hw⟩ := Option.isSome_iff_exists.mp h0
        rw [clampW_weight hw]
        rfl
      · rw [clampW_getNum_ne _ _ hc]
        exact h0
    · intro r hr
      exact h r (List.mem_of_mem_filter hr)
  · exact h

/-! ## Length preservation and weight tracing for the re-run pipeline -/

theorem imputeCol_length (s : Schema) (c : NumCol) (recs : List Shipment) :
    (imputeCol s c recs).length = recs.length := by
  unfold imputeCol
  split
  · exact List.length_map recs _
  · rfl

theorem foldl_imputeCol_length (s : Schema) :
    ∀ (cols : List NumCol) (recs : List Shipment),
      (cols.foldl (fun acc c => imputeCol s c acc) recs).length = recs.length
  | [], _ => rfl
  | c :: cols, recs =>
    (foldl_imputeCol_length s cols (imputeCol s c recs)).trans
      (imputeCol_length s c recs)

theorem imputeAll_length (s : Schema) (recs : List Shipment) :
    (imputeAll s recs).length = recs.length :=
  foldl_imputeCol_length s numericCols recs

/-- Each record of `afterRange` carries a weight cell unchanged from some
input record. -/
theorem afterRange_weight {df : Df} {r : Shipment} (h : r ∈ afterRange df) :
    ∃ r0 ∈ df.records, r.weight = r0.weight := by
  unfold afterRange rangeForce at h
  obtain ⟨r1, hr1, rfl⟩ := List.mem_map.mp h
  unfold afterDerive computeDelay computeLead at hr1
  obtain ⟨r2, hr2, rfl⟩ := List.mem_map.mp hr1
  obtain ⟨r3, hr3, rfl⟩ := List.mem_map.mp hr2
  exact ⟨r3, (mem_afterDates hr3).1, rfl⟩

/-- Every record reaching the imputation output of the re-run pipeline has
a positive present weight bounded by the first run's clamp ceiling. -/
theorem toRaw_load_weight {df : Df} (hw : df.schema.hasNum .weight = true)
    {r : Shipment} (h : r ∈ afterImpute (toRaw (load_data df))) :
    ∃ w, r.weight = some w ∧ 0 < w ∧
      ∀ c1, weight_cap df = some c1 → w ≤ c1 := by
  obtain ⟨r0, hr0, -, hwpres⟩ := afterImpute_mem h
  obtain ⟨r1, hr1, hw01⟩ := afterRange_weight hr0
  obtain ⟨e, he, rfl⟩ := List.mem_map.mp hr1
  obtain ⟨w, cap, hew, hcap, hwpos, hwle⟩ := load_data_weight hw he
  have hr0w : r0.weight = some w := by
    rw [hw01]
    exact hew
  have hrw : r.weight = some w :=
    (hwpres (by rw [hr0w]; rfl)).trans hr0w
  refine ⟨w, hrw, hwpos, fun c1 hc1 => ?_⟩
  rw [hcap] at hc1
  exact (Option.some.inj hc1) ▸ hwle

/-- Re-running `load_data` on the raw shape of its own output keeps the
record count. -/
theorem load_data_toRaw_len (df : Df) :
    (load_data (toRaw (load_data df))).records.length =
      (load_data df).records.length := by
  have hdates : afterDates (toRaw (load_data df)) = (toRaw (load_data df)).records := by
    rw [afterDates, dropDates, List.filter_eq_self]
    intro a ha
    obtain ⟨e, he, rfl⟩ := List.mem_map.mp ha
    obtain ⟨s, d, hs, hd, -⟩ := load_data_mem he
    have hs' : (toRawFn e).scheduled = some s := hs
    have hd' : (toRawFn e).delivered = some d := hd
    rw [Bool.and_eq_true, hs', hd']
    exact ⟨rfl, rfl⟩
  have himp : (afterImpute (toRaw (load_data df))).length =
      (load_data df).records.length := by
    rw [afterImpute, imputeAll_length, afterRange, rangeForce, List.length_map,
      afterDerive, computeDelay, List.length_map, computeLead, List.length_map,
      hdates]
    exact List.length_map _ toRawFn
  have hlast : (load_data (toRaw (load_data df))).records.length =
      (weightStep df.schema (afterImpute (toRaw (load_data df)))).length :=
    List.length_map _ setLate
  rw [hlast]
  unfold weightStep
  by_cases hw : df.schema.hasNum .weight = true
  · rw [if_pos hw]
    have hfilter : (afterImpute (toRaw (load_data df))).filter wpos =
        afterImpute (toRaw (load_data df)) := by
      rw [List.filter_eq_self]
      intro r hr
      obtain ⟨w, hwsome, hwp, -⟩ := toRaw_load_weight hw hr
      unfold wpos
      rw [hwsome]
      simpa using hwp
    split
    · rw [List.length_map, hfilter, himp]
    · rw [hfilter, himp]
  · rw [if_neg hw]
    exact himp

/-- The re-run clamp ceiling exists and is at most the first run's. -/
theorem cap_le_of_rerun {df : Df} {c1 : ℚ} (hc1 : weight_cap df = some c1) :
    ∃ c2, weight_cap (toRaw (load_data df)) = some c2 ∧ c2 ≤ c1 := by
  have hw : df.schema.hasNum .weight = true := by
    by_contra hnw
    unfold weight_cap at hc1
    rw [if_neg hnw] at hc1
    exact Option.noConfusion hc1
  have hq1 : quantile95 (((afterImpute df).filter wpos).filterMap fun r => r.weight) =
      some c1 := by
    unfold weight_cap at hc1
    rwa [if_pos hw] at hc1
  have hbound : ∀ x ∈ ((afterImpute (toRaw (load_data df))).filter wpos).filterMap
      (fun r => r.weight), x ≤ c1 := by
    intro x hx
    obtain ⟨r, hr, hxw⟩ := List.mem_filterMap.mp hx
    obtain ⟨w, hwsome, -, hwle⟩ := toRaw_load_weight hw (List.mem_of_mem_filter hr)
    rw [hwsome] at hxw
    rw [← Option.some.inj hxw]
    exact hwle c1 hc1
  have hlen := load_data_toRaw_len df
  have hEpos : 0 < (load_data df).records.length := by
    have hpos1 : (afterImpute df).filter wpos ≠ [] := by
      intro hnil
      rw [hnil] at hq1
      rw [show List.filterMap (fun r : Shipment => r.weight) [] = [] from rfl,
        (quantile95_none_iff []).mpr rfl] at hq1
      exact Option.noConfusion hq1
    have : (load_data df).records.length =
        (weightStep df.schema (afterImpute df)).length := List.length_map _ setLate
    rw [this]
    unfold weightStep
    rw [if_pos hw, hq1]
    rw [List.length_map]
    exact List.length_pos.mpr hpos1
  cases hq2 : quantile95 (((afterImpute (toRaw (load_data df))).filter wpos).filterMap
      fun r => r.weight) with
  | none =>
    exfalso
    have hnil := (quantile95_none_iff _).mp hq2
    have hlen2 : (load_data (toRaw (load_data df))).records.length =
        (weightStep df.schema (afterImpute (toRaw (load_data df)))).length :=
      List.length_map _ setLate
    have hws : (weightStep df.schema (afterImpute (toRaw (load_data df)))).length ≠ 0 := by
      rw [← hlen2, hlen]
      omega
    unfold weightStep at hws
    rw [if_pos hw, hq2] at hws
    have hws' : ((afterImpute (toRaw (load_data df))).filter wpos).length ≠ 0 := hws
    obtain ⟨r, hr⟩ :=
      List.exists_mem_of_ne_nil ((afterImpute (toRaw (load_data df))).filter wpos)
        (fun h0 => hws' (by rw [h0]; rfl))
    have hwr := (List.mem_filter.mp hr).2
    unfold wpos at hwr
    cases hx : r.weight with
    | none => rw [hx] at hwr; exact Bool.noConfusion hwr
    | some w =>
      have : w ∈ ((afterImpute (toRaw (load_data df))).filter wpos).filterMap
          (fun r => r.weight) := List.mem_filterMap.mpr ⟨r, hr, hx⟩
      rw [hnil] at this
      exact List.not_mem_nil w this
  | some c2 =>
    refine ⟨c2, ?_, quantile95_le hq2 hbound⟩
    unfold weight_cap
    have hwR : (toRaw (load_data df)).schema.hasNum .weight = true := hw
    rw [if_pos hwR]
    exact hq2

/-! ## Claim theorems -/

/-- C10: on an empty enriched set the five headline metrics are all
defined (the Lean functions are total, as the pandas expressions are
error-free): `total_shipments` is 0, `late_shipments` is 0, and
`late_ratio`, `avg_lead` and `avg_delay` are absent (`NaN`), not zero. -/
theorem claim_C10 :
    total_shipments [] = 0 ∧ late_shipments [] = 0 ∧
      late_ratio [] = none ∧ avg_lead [] = none ∧ avg_delay [] = none :=
  ⟨rfl, rfl, rfl, rfl, rfl⟩

/-- C7: a record passes the View Selector iff, for every dimension with a
non-empty allowed set, its value on that dimension is in the set (logical
AND); an empty allowed set imposes no exclusion, and with both allowed
sets empty the record set is unchanged. -/
theorem claim_C7 :
    (∀ (cf mf : List String) (rs : List Shipment) (r : Shipment),
      r ∈ df_filtered cf mf rs ↔
        r ∈ rs ∧ (cf ≠ [] → r.country ∈ cf) ∧ (mf ≠ [] → r.mode ∈ mf)) ∧
    ∀ rs : List Shipment, df_filtered [] [] rs = rs := by
  constructor
  · intro cf mf rs r
    unfold df_filtered
    rcases cf with _ | ⟨c, cs⟩ <;> rcases mf with _ | ⟨m, ms⟩ <;>
      simp [List.mem_filter, and_assoc]
    exact fun _ => and_comm
  · intro rs
    rfl

/-- C7 witness: with the country filter `{"Togo"}` and no mode filter, a
Togo record passes. -/
theorem claim_C7_witness :
    baseRec ∈ df_filtered ["A"] [] [baseRec] :=
  (claim_C7.1 ["A"] [] [baseRec] baseRec).mpr
    ⟨by decide, fun _ => by decide, fun h => absurd rfl h⟩

/-- C2: for every record of the enriched set, `is_late = 1` iff
`delay_days` is present and positive; a record with absent `delay_days`
has `is_late = 0`. -/
theorem claim_C2 :
    ∀ (df : Df), ∀ r ∈ (load_data df).records,
      (r.is_late = 1 ↔ ∃ d, r.delay_days = some d ∧ 0 < d) ∧
      (r.delay_days = none → r.is_late = 0) := by
  intro df r h
  obtain ⟨s, d, -, -, -, -, -, hlate⟩ := load_data_mem h
  refine ⟨⟨?_, ?_⟩, ?_⟩
  · intro h1
    cases hy : r.delay_days with
    | none =>
      rw [hlate, hy] at h1
      exact absurd h1 (by decide)
    | some x =>
      refine ⟨x, rfl, ?_⟩
      by_cases hx : 0 < x
      · exact hx
      · rw [hlate, hy] at h1
        have h1' : (if 0 < x then 1 else 0 : ℕ) = 1 := h1
        rw [if_neg hx] at h1'
        exact absurd h1' (by decide)
  · rintro ⟨d0, hd0, hpos⟩
    rw [hlate, hd0]
    show (if 0 < d0 then 1 else 0 : ℕ) = 1
    rw [if_pos hpos]
  · intro hy
    rw [hlate, hy]

/-- C2 witness: the first Togo record was delivered 5 days late and is
flagged late. -/
theorem claim_C2_witness :
    (((load_data togoDf).records.getD 0 baseRec).is_late = 1 ↔
      ∃ d, ((load_data togoDf).records.getD 0 baseRec).delay_days = some d ∧ 0 < d) ∧
    (((load_data togoDf).records.getD 0 baseRec).delay_days = none →
      ((load_data togoDf).records.getD 0 baseRec).is_late = 0) :=
  claim_C2 togoDf ((load_data togoDf).records.getD 0 baseRec) (by decide)

/-- C3 counterexample: the claim says an enriched record with absent
`delay_days` never exists, but a record delivered 400 days after its
scheduled date is retained (both dates are present) while line 72 of the
source forces its `delay_days` to `NaN`: the enriched set holds exactly
one record and its `delay_days` is absent. -/
theorem claim_C3_cex :
    (load_data lateDf).records.length = 1 ∧
    ((load_data lateDf).records.map fun r => r.delay_days) = [none] := by
  constructor
  · decide
  · decide

/-- C3 (amended): every retained record has both source dates present, so
its delay is always computable; `delay_days` carries that difference
exactly when it lies in [−90, 365] and is forced absent otherwise (the
record itself is not dropped). -/
theorem claim_C3 :
    ∀ (df : Df), ∀ r ∈ (load_data df).records,
      ∃ s d, r.scheduled = some s ∧ r.delivered = some d ∧
        r.delay_days =
          (if 365 < d - s then none else if d - s < -90 then none
           else some (d - s)) := by
  intro df r h
  obtain ⟨s, d, hs, hd, hy, -⟩ := load_data_mem h
  exact ⟨s, d, hs, hd, hy⟩

/-- C3 witness: the amended claim applied to the retained out-of-range
record. -/
theorem claim_C3_witness :
    ∃ s d, ((load_data lateDf).records.getD 0 baseRec).scheduled = some s ∧
      ((load_data lateDf).records.getD 0 baseRec).delivered = some d ∧
      ((load_data lateDf).records.getD 0 baseRec).delay_days =
        (if 365 < d - s then none else if d - s < -90 then none
         else some (d - s)) :=
  claim_C3 lateDf ((load_data lateDf).records.getD 0 baseRec) (by decide)

/-- C5: on every enriched record a present `lead_time_days` lies in
[0, 365] and a present `delay_days` lies in [−90, 365]; the range step
forces values absent without dropping records (it preserves the record
count). -/
theorem claim_C5 :
    (∀ (df : Df), ∀ r ∈ (load_data df).records,
      (∀ v, r.lead_time_days = some v → 0 ≤ v ∧ v ≤ 365) ∧
      (∀ v, r.delay_days = some v → -90 ≤ v ∧ v ≤ 365)) ∧
    ∀ recs : List Shipment, (rangeForce recs).length = recs.length := by
  constructor
  · intro df r h
    obtain ⟨s, d, -, -, -, hlead, hdelay, -⟩ := load_data_mem h
    exact ⟨hlead, hdelay⟩
  · intro recs
    exact List.length_map recs forceRanges

/-- C5 witness: the first Togo record has `delay_days = some 5`, which the
theorem bounds, and the range step preserves the length of a singleton. -/
theorem claim_C5_witness :
    ((-90 : ℤ) ≤ 5 ∧ (5 : ℤ) ≤ 365) ∧
    (rangeForce [baseRec]).length = [baseRec].length :=
  ⟨((claim_C5.1 togoDf ((load_data togoDf).records.getD 0 baseRec)
      (by decide)).2) 5 (by decide), claim_C5.2 [baseRec]⟩

/-- C4: when the weight column exists, every enriched record has a present
weight `w` with `0 < w ≤ weight_cap` (the 95th percentile at clamp time);
in the concrete batch whose 95th percentile is 500, the weight-100000
record is retained with weight 500 while the weight-(−3) record is
dropped. -/
theorem claim_C4 :
    (∀ (df : Df), df.schema.hasNum .weight = true →
      ∀ r ∈ (load_data df).records,
        ∃ w cap, r.weight = some w ∧ weight_cap df = some cap ∧
          0 < w ∧ w ≤ cap) ∧
    weight_cap capDf = some 500 ∧
    ((load_data capDf).records.map fun r => (r.country, r.weight)) =
      List.replicate 20 ("W500", some (500 : ℚ)) ++
        [("BIG", some (500 : ℚ))] := by
  refine ⟨fun df hw r h => load_data_weight hw h, ?_, ?_⟩
  · decide
  · decide

/-- C4 witness: the invariant applied to the first record of the clamp
scenario. -/
theorem claim_C4_witness :
    ∃ w cap, ((load_data capDf).records.getD 0 baseRec).weight = some w ∧
      weight_cap capDf = some cap ∧ 0 < w ∧ w ≤ cap :=
  claim_C4.1 capDf (by decide) ((load_data capDf).records.getD 0 baseRec) (by decide)

/-- C1: for any group-by key, every emitted aggregate row has
`late_ratio = round2(late_shipments / total_shipments * 100)` and a
strictly positive `total_shipments` (only keys present in the input get a
row, so the ratio is never formed over a zero count); the three-record
Togo scenario yields exactly the row `total_shipments = 3,
late_shipments = 2, late_ratio = 66.67`. -/
theorem claim_C1 :
    (∀ (keyf : Shipment → String) (rs : List Shipment),
      ∀ row ∈ (agg_base keyf rs).map with_ratio,
        row.late_ratio =
          round2 ((row.late_shipments : ℚ) / (row.total_shipments : ℚ) * 100) ∧
        0 < row.total_shipments) ∧
    country_stats (load_data togoDf).records = [togoRow] := by
  constructor
  · intro keyf rs row hrow
    obtain ⟨b, hb, rfl⟩ := List.mem_map.mp hrow
    refine ⟨rfl, ?_⟩
    unfold agg_base at hb
    obtain ⟨k, hk, rfl⟩ := List.mem_map.mp hb
    have hk' : k ∈ (rs.map keyf).dedup :=
      (List.mem_insertionSort (fun a b => strLe a b = true)).mp hk
    obtain ⟨r, hr, hrk⟩ := List.mem_map.mp (List.mem_dedup.mp hk')
    show 0 < (rs.filter fun r => keyf r == k).length
    have hmem : r ∈ rs.filter fun r => keyf r == k :=
      List.mem_filter.mpr ⟨hr, by rw [hrk]; exact beq_self_eq_true k⟩
    exact List.length_pos.mpr (List.ne_nil_of_mem hmem)
  · decide

/-- C1 witness: the ratio equation and positive count at the Togo row. -/
theorem claim_C1_witness :
    togoRow.late_ratio =
      round2 ((togoRow.late_shipments : ℚ) / (togoRow.total_shipments : ℚ) * 100) ∧
    0 < togoRow.total_shipments :=
  claim_C1.1 (fun r => r.country) (load_data togoDf).records togoRow (by decide)

/-- C6 counterexample: the claim promises a present value in every core
numeric column that exists in the schema, but when the whole column is
absent the median is `NaN` and `fillna` fills nothing: a one-record frame
whose freight cell is absent keeps it absent in the enriched set. -/
theorem claim_C6_cex :
    noFreightDf.schema.hasNum .freight = true ∧
    (load_data noFreightDf).records.length = 1 ∧
    ((load_data noFreightDf).records.map fun r => r.freight) = [none] := by
  refine ⟨rfl, ?_, ?_⟩
  · decide
  · decide

/-- C6 (amended): for a core numeric column present in the schema, if at
least one value of the column is present when the imputation loop runs
(i.e. after coercion, before the weight filter and clamp), then every
record of the enriched set has a present value in that column. -/
theorem claim_C6 :
    ∀ (df : Df) (c : NumCol), df.schema.hasNum c = true →
      (∃ r ∈ afterRange df, (r.getNum c).isSome) →
      ∀ r ∈ (load_data df).records, (r.getNum c).isSome := by
  intro df c hs hex r h
  have hmem : c ∈ numericCols := by cases c <;> decide
  have h1 : ∀ r ∈ afterImpute df, (r.getNum c).isSome :=
    foldl_imputeCol_isSome df.schema c hs numericCols (afterRange df) hmem hex
  obtain ⟨r0, hr0, rfl⟩ := isLateStep_mem h
  rw [setLate_getNum]
  exact weightStep_preserves_isSome h1 r0 hr0

/-- C6 witness: with one present freight value in a two-record frame, both
enriched records have present freight (the absent one was imputed with the
median). -/
theorem claim_C6_witness :
    someFreightDf.schema.hasNum .freight = true ∧
    (∃ r ∈ afterRange someFreightDf, (r.getNum .freight).isSome) ∧
    (((load_data someFreightDf).records.getD 1 baseRec).getNum .freight).isSome :=
  ⟨rfl, by decide,
    claim_C6 someFreightDf .freight rfl (by decide)
      ((load_data someFreightDf).records.getD 1 baseRec) (by decide)⟩

/-- C8 counterexample: eleven country groups are tied on
`total_quantity`; the claim says ties break by original (table) order, so
the first ten groups `C01 … C10` would be selected, but the code's
descending sort is the reversal of a stable ascending sort, so `C01` — the
first group of the table — is the one dropped. -/
theorem claim_C8_cex :
    ((country_stats tieRecs).map fun row => (row.key, row.total_quantity)) =
      [("C01", 10), ("C02", 10), ("C03", 10), ("C04", 10), ("C05", 10),
       ("C06", 10), ("C07", 10), ("C08", 10), ("C09", 10), ("C10", 10),
       ("C11", 10)] ∧
    ((top_countries tieRecs).map fun row => row.key) =
      ["C11", "C10", "C09", "C08", "C07", "C06", "C05", "C04", "C03", "C02"] := by
  constructor
  · decide
  · decide

/-- C8 (amended): top-K by metric M selects K groups of maximal M (every
selected group's M is at least every unselected group's M), returns all
groups when fewer than K exist, and the result is a permutation-respecting
reordering — but ties are broken by the *reverse* of the original group
order, because pandas implements a descending sort by reversing a stable
ascending sort: with eleven groups tied, the first group of the table is
dropped, not the eleventh. -/
theorem claim_C8 :
    (∀ (K : ℕ) (key : AggRow → ℚ) (l : List AggRow),
      ((sort_values_desc key l).take K).length = min K l.length ∧
      (sort_values_desc key l).Perm l ∧
      (∀ a ∈ (sort_values_desc key l).take K,
        ∀ b ∈ (sort_values_desc key l).drop K, key b ≤ key a) ∧
      (l.length ≤ K → ((sort_values_desc key l).take K).Perm l)) ∧
    (∀ rs : List Shipment, top_countries rs =
      (sort_values_desc (fun row => row.total_quantity) (country_stats rs)).take 10) ∧
    ((top_countries tieRecs).map fun row => row.key) =
      ["C11", "C10", "C09", "C08", "C07", "C06", "C05", "C04", "C03", "C02"] := by
  refine ⟨?_, fun rs => rfl, by decide⟩
  intro K key l
  haveI htot : IsTotal AggRow fun a b => key a ≤ key b :=
    ⟨fun a b => le_total (key a) (key b)⟩
  haveI htrans : IsTrans AggRow fun a b => key a ≤ key b :=
    ⟨fun _ _ _ hab hbc => le_trans hab hbc⟩
  have hlen : (sort_values_desc key l).length = l.length := by
    unfold sort_values_desc
    rw [List.length_reverse, List.length_insertionSort]
  have hperm : (sort_values_desc key l).Perm l :=
    (List.reverse_perm _).trans (List.perm_insertionSort _ l)
  have hsorted : List.Pairwise (fun a b => key b ≤ key a) (sort_values_desc key l) := by
    unfold sort_values_desc
    rw [List.pairwise_reverse]
    exact List.sorted_insertionSort (fun a b => key a ≤ key b) l
  refine ⟨by rw [List.length_take, hlen], hperm, ?_, ?_⟩
  · intro a ha b hb
    have hsplit := List.take_append_drop K (sort_values_desc key l)
    rw [← hsplit] at hsorted
    exact (List.pairwise_append.mp hsorted).2.2 a ha b hb
  · intro hK
    rw [List.take_of_length_le (hlen ▸ hK)]
    exact hperm

/-- C8 witness: with eleven groups and K = 11 all groups are returned. -/
theorem claim_C8_witness :
    (country_stats tieRecs).length ≤ 11 ∧
    ((sort_values_desc (fun row => row.total_quantity)
      (country_stats tieRecs)).take 11).Perm (country_stats tieRecs) :=
  ⟨by decide,
    (claim_C8.1 11 (fun row => row.total_quantity) (country_stats tieRecs)).2.2.2
      (by decide)⟩

/-- C9 counterexample: the claim says re-running the pipeline yields the
same clamp ceiling, but the ceiling is an interpolated percentile: for
weights {1, 100} the first ceiling is 1 + 0.95·99 = 95.05, the 100 is
clamped to 95.05, and the re-run ceiling is 1 + 0.95·94.05 = 90.3475 —
strictly smaller, so the clamp is not a fixed point. -/
theorem claim_C9_cex :
    weight_cap twoWeightDf = some (1901 / 20) ∧
    weight_cap (toRaw (load_data twoWeightDf)) = some (36139 / 400) ∧
    weight_cap (toRaw (load_data twoWeightDf)) ≠ weight_cap twoWeightDf := by
  refine ⟨?_, ?_, ?_⟩
  · decide
  · decide
  · decide

/-- C9 (amended): re-running the normalize→filter→enrich pipeline on the
raw shape of its own output yields the same record count, and a clamp
ceiling that exists and is at most the original one — but not in general
equal to it (the interpolated 95th percentile of the clamped weights can
be strictly smaller), so the clamp ceiling is not a fixed point. -/
theorem claim_C9 :
    (∀ df : Df, (load_data (toRaw (load_data df))).records.length =
      (load_data df).records.length) ∧
    ∀ (df : Df) (c1 : ℚ), weight_cap df = some c1 →
      ∃ c2, weight_cap (toRaw (load_data df)) = some c2 ∧ c2 ≤ c1 :=
  ⟨load_data_toRaw_len, fun _ _ hc1 => cap_le_of_rerun hc1⟩

/-- C9 witness: the amended claim at the two-record frame. -/
theorem claim_C9_witness :
    ((load_data (toRaw (load_data twoWeightDf))).records.length =
      (load_data twoWeightDf).records.length) ∧
    ∃ c2, weight_cap (toRaw (load_data twoWeightDf)) = some c2 ∧ c2 ≤ 1901 / 20 :=
  ⟨claim_C9.1 twoWeightDf, claim_C9.2 twoWeightDf (1901 / 20) (by decide)⟩

end SupplyChain

